import Mathlib

/-!
Verification of the hanzo MCP tool server (TypeScript sources under `src/`)
against its natural-language specification.

The embedding models the pure decision logic of the tool handlers:
file contents are `List Char` (one entry per UTF-16 code unit of the
JavaScript string), tool-result envelopes are a text part plus the
`isError` flag, and the effectful boundary (the Node.js APIs the handlers
call) is made explicit as function arguments and returned state.

JavaScript string semantics modelled here:
* `s.includes(pat)`   — substring test; the empty pattern is always found.
* `s.split(pat).length - 1` — the number of non-overlapping, left-to-right
  occurrences of a non-empty `pat`; for the empty pattern JavaScript yields
  `s.length - 1` (so `-1` for the empty string, which we truncate to `0`;
  the value is only ever compared with `> 1`, where the two agree).
* `s.replace(pat, rep)` — replaces the first occurrence of `pat` (for the
  empty pattern: prepends `rep`).  JavaScript additionally expands `$`
  escapes inside `rep`; the tool documents `newText` as "The new text to
  insert", so the model takes the literal-insertion semantics and
  replacement strings containing `$` escapes are outside the model.
-/

set_option autoImplicit false
set_option linter.unusedVariables false

namespace HanzoMCP

/-! ### String primitives -/

/-- Shorthand: the character list underlying a string literal. -/
def lc (s : String) : List Char := s.data

/-- Model of JavaScript `s.includes(pat)`. -/
def listIncludes : List Char → List Char → Bool
  | _, [] => true
  | [], _ :: _ => false
  | c :: t, p :: ps =>
    List.isPrefixOf (p :: ps) (c :: t) || listIncludes t (p :: ps)

/-- Fuelled worker for the occurrence count: scans left to right and skips
the whole pattern after each match (non-overlapping, as JavaScript `split`
does).  Structural recursion on the fuel keeps it kernel-reducible. -/
def countOccF : Nat → List Char → List Char → Nat
  | 0, _, _ => 0
  | _ + 1, [], _ => 0
  | f + 1, c :: t, pat =>
    if List.isPrefixOf pat (c :: t) then
      1 + countOccF f (List.drop pat.length (c :: t)) pat
    else
      countOccF f t pat

/-- Model of JavaScript `s.split(pat).length - 1`, the occurrence count the
edit tools compute (src/tools/edit.ts line 50 and line 124). -/
def countOcc (s pat : List Char) : Nat :=
  if pat.isEmpty then s.length - 1 else countOccF s.length s pat

/-- Model of JavaScript `s.replace(pat, rep)`: first occurrence only,
literal replacement. -/
def replaceFirst : List Char → List Char → List Char → List Char
  | s, [], rep => rep ++ s
  | [], _ :: _, _ => []
  | c :: t, p :: ps, rep =>
    if List.isPrefixOf (p :: ps) (c :: t) then
      rep ++ List.drop (p :: ps).length (c :: t)
    else
      c :: replaceFirst t (p :: ps) rep

/-- Model of JavaScript `s.split(sep)` for a single-character separator
(src/tools/shell.ts line 114 uses `command.split(' ')`):
`""` splits to `[""]`, and consecutive separators produce empty tokens. -/
def jsSplitChar (sep : Char) : List Char → List (List Char)
  | [] => [[]]
  | c :: cs =>
    if c == sep then [] :: jsSplitChar sep cs
    else
      match jsSplitChar sep cs with
      | [] => [[c]]
      | h :: t => (c :: h) :: t

/-- Joins token lists with a single separator character; the inverse view of
`jsSplitChar` used to state what the tokenization preserves. -/
def joinSep (sep : Char) : List (List Char) → List Char
  | [] => []
  | [x] => x
  | x :: y :: ys => x ++ sep :: joinSep sep (y :: ys)

/-- Tool-result envelope: every handler in the source returns a single text
content part and an optional `isError` flag (absent means `false`). -/
structure ToolRes where
  text : String
  isError : Bool
deriving DecidableEq, Repr

/-! ### Edit engine (src/tools/edit.ts) -/

/-- One entry of the `edits` array of `multi_edit`. -/
structure Edit where
  oldText : List Char
  newText : List Char
deriving DecidableEq, Repr

/-- Model of the `edit_file` handler (src/tools/edit.ts lines 35-79) on a
readable file: given the current content and the arguments, returns the
result envelope and the file content after the call. -/
def editFileHandler (path : String) (content old new : List Char) :
    ToolRes × List Char :=
  if listIncludes content old = false then
    (⟨"Error: oldText not found in file. Make sure it matches exactly, including whitespace.",
      true⟩, content)
  else
    let occurrences := countOcc content old
    if 1 < occurrences then
      (⟨"Error: oldText found " ++ toString occurrences ++
        " times. Please make it unique by including more context.", true⟩, content)
    else
      (⟨"Successfully replaced text in " ++ path, false⟩,
       replaceFirst content old new)

/-- One iteration of the `multi_edit` loop (src/tools/edit.ts lines
118-132): returns the running content after this edit and the per-edit
result line. -/
def multiEditStep (content : List Char) (e : Edit) : List Char × String :=
  if listIncludes content e.oldText = false then
    (content, "❌ oldText not found: \"" ++ String.mk (e.oldText.take 50) ++ "...\"")
  else if 1 < countOcc content e.oldText then
    (content, "❌ oldText found " ++ toString (countOcc content e.oldText) ++
      " times: \"" ++ String.mk (e.oldText.take 50) ++ "...\"")
  else
    (replaceFirst content e.oldText e.newText,
     "✓ Replaced: \"" ++ String.mk (e.oldText.take 30) ++ "...\" → \"" ++
       String.mk (e.newText.take 30) ++ "...\"")

/-- Loop body of `multi_edit` threading (running content, result lines). -/
def multiEditLoop (acc : List Char × List String) (e : Edit) :
    List Char × List String :=
  ((multiEditStep acc.1 e).1, acc.2 ++ [(multiEditStep acc.1 e).2])

/-- Model of the `multi_edit` handler (src/tools/edit.ts lines 113-151) on a
readable, writable file: failed edits are recorded and skipped (`continue`),
the running content is written unconditionally afterwards, and the envelope
never carries `isError` on this path. -/
def multiEditHandler (path : String) (content : List Char)
    (edits : List Edit) : ToolRes × List Char :=
  let r := edits.foldl multiEditLoop (content, [])
  (⟨"Edits completed in " ++ path ++ ":\n" ++ String.intercalate "\n" r.2,
    false⟩, r.1)

/-! ### Filesystem tools (src/tools/file-ops.ts)

The filesystem is an association list from absolute paths to contents; the
handlers of `read_file` and `write_file` (lines 28-46 and 71-90) issue
their `fs` calls directly on the caller-supplied path.  The configured
allowed roots are threaded through as an argument to make the absence of
any check against them visible in the statements. -/

/-- Lookup in the modelled filesystem. -/
def lookupFS : List (String × String) → String → Option String
  | [], _ => none
  | kv :: t, p => if kv.1 = p then some kv.2 else lookupFS t p

/-- Overwrite-or-create in the modelled filesystem (what `fs.writeFile`
does; `mkdir -p` on the parent always succeeds in the model). -/
def setFS : List (String × String) → String → String → List (String × String)
  | [], p, c => [(p, c)]
  | kv :: t, p, c => if kv.1 = p then (p, c) :: t else kv :: setFS t p c

/-- Modelled from the spec: the permission manager of spec §4.3 is absent
from the source; this predicate renders "the canonical form of the path is
under one of the configured allowed roots" for already-canonical absolute
paths (equality with a root, or the root followed by a path separator as a
prefix).  Canonicalization itself (symlink and dot-segment resolution) is
the identity on such paths. -/
def underAllowedRoots (roots : List String) (p : String) : Bool :=
  roots.any (fun r => r == p || List.isPrefixOf (r ++ "/").data p.data)

/-- Model of the `read_file` handler (src/tools/file-ops.ts lines 28-46):
no permission check appears in the source, so the `roots` argument is
unused.  The error text for a missing file abbreviates the Node `ENOENT`
message interpolated by the catch branch. -/
def readFileHandler (roots : List String) (fs : List (String × String))
    (p : String) : ToolRes :=
  match lookupFS fs p with
  | some c => ⟨c, false⟩
  | none => ⟨"Error reading file: ENOENT", true⟩

/-- Model of the `write_file` handler (src/tools/file-ops.ts lines 71-90):
creates parent directories and writes unconditionally; again no use of the
configured roots. -/
def writeFileHandler (roots : List String) (fs : List (String × String))
    (p c : String) : ToolRes × List (String × String) :=
  (⟨"File written successfully: " ++ p, false⟩, setFS fs p c)

/-! ### Dispatcher (src/index.ts lines 73-98 and src/cli.ts lines 81-271) -/

/-- Outcome of invoking a tool handler, as observed by the dispatcher's
try/catch: either a returned envelope or a thrown exception message. -/
inductive HandlerOutcome where
  | returns (r : ToolRes)
  | throws (msg : String)
deriving DecidableEq, Repr

/-- First-match association-list lookup (the `Map.get` of the combined tool
map in src/index.ts line 74). -/
def lookupAssoc {α : Type} : List (String × α) → String → Option α
  | [], _ => none
  | kv :: t, n => if kv.1 = n then some kv.2 else lookupAssoc t n

/-- Model of the `CallToolRequestSchema` handler of `createMCPServer`
(src/index.ts lines 73-98): unknown tool names produce an error envelope
naming the tool; a throwing handler is caught and converted to an error
envelope; otherwise the handler result is forwarded verbatim.  No
validation of the arguments against the tool's declared input schema
happens anywhere on this path. -/
def dispatchCallTool (reg : List (String × HandlerOutcome)) (name : String) :
    ToolRes :=
  match lookupAssoc reg name with
  | none => ⟨"Unknown tool: " ++ name, true⟩
  | some (HandlerOutcome.returns r) => r
  | some (HandlerOutcome.throws m) =>
    ⟨"Error executing " ++ name ++ ": " ++ m, true⟩

/-- The six tool names the CLI stdio server handles inline
(src/cli.ts lines 81-268). -/
def cliToolNames : List String :=
  ["read_file", "write_file", "list_files", "search_files",
   "run_command", "get_file_info"]

/-- Model of the `CallToolRequestSchema` handler installed by
`startStdioServer` (src/cli.ts lines 81-271): each known tool's branch
returns an envelope (its internal failures are caught branch-locally,
abstracted as `branchResult`), but a name matching no branch reaches
line 270, which throws `new Error("Unknown tool: " + name)` — modelled as
`Except.error`. -/
def cliDispatchCallTool (branchResult : ToolRes) (name : String) :
    Except String ToolRes :=
  if cliToolNames.contains name then Except.ok branchResult
  else Except.error ("Unknown tool: " ++ name)

/-! ### Shell tools (src/tools/shell.ts) -/

/-- Termination of a synchronous shell command within its timeout: the exit
code and the captured streams.  `promisify(exec)` resolves exactly when the
exit code is `0`; any non-zero exit makes it reject with an `Error` whose
`message` is Node's "Command failed: ..." diagnostic, carrying the captured
`stdout` and `stderr` (src/tools/shell.ts lines 41-71). -/
inductive ExecOutcome where
  | exited (code : Nat) (stdout : String) (stderr : String)
deriving DecidableEq, Repr

/-- Model of the `bash` handler (src/tools/shell.ts lines 41-71) for a
command that starts and terminates within the timeout.  The exact Node
error message text is irrelevant to the claims; the model uses the
"Command failed" stem. -/
def bashHandler (cmd : String) : ExecOutcome → ToolRes
  | ExecOutcome.exited 0 out err =>
    let output := out ++ (if err ≠ "" then "\n[stderr]\n" ++ err else "")
    ⟨if output = "" then "Command completed with no output" else output, false⟩
  | ExecOutcome.exited (_ + 1) out err =>
    ⟨"Error executing command: Command failed: " ++ cmd ++ "\n" ++ out ++
      "\n" ++ err, true⟩

/-- Arguments of `run_background` (src/tools/shell.ts lines 84-101):
`command` and `id` are declared required; `id` is `Option` so that a call
that omits it (JavaScript `undefined`) is representable. -/
structure BgArgs where
  command : String
  id : Option String
  cwd : Option String
deriving DecidableEq, Repr

/-- A record of the background-process table (src/tools/shell.ts line 13,
121-139): captured stdout and stderr chunks and the exit code once set.
The OS process handle is not representable and is omitted. -/
structure BgRec where
  command : String
  output : List String
  error : List String
  exitCode : Option Int
deriving DecidableEq, Repr

/-- JavaScript string interpolation of a possibly-undefined value. -/
def showOptId : Option String → String
  | some s => s
  | none => "undefined"

/-- `Map.get` on the background-process table. -/
def lookupTable : List (Option String × BgRec) → Option String → Option BgRec
  | [], _ => none
  | kv :: t, k => if kv.1 == k then some kv.2 else lookupTable t k

/-- `Map.has` on the background-process table. -/
def hasKeyTable (t : List (Option String × BgRec)) (k : Option String) : Bool :=
  (lookupTable t k).isSome

/-- `Map.delete` on the background-process table.  A JavaScript `Map` holds
at most one entry per key, so removing every entry with the key agrees with
deleting the single one on every reachable table. -/
def eraseKeyTable (t : List (Option String × BgRec)) (k : Option String) :
    List (Option String × BgRec) :=
  t.filter (fun kv => !(kv.1 == k))

/-- The executable and argument vector `run_background` spawns
(src/tools/shell.ts lines 114-119): `const [cmd, ...cmdArgs] =
args.command.split(' '); spawn(cmd, cmdArgs, ...)` — no shell is involved. -/
def parseBgCommand (command : List Char) : List Char × List (List Char) :=
  match jsSplitChar ' ' command with
  | [] => ([], [])
  | h :: t => (h, t)

/-- Model of the `run_background` handler (src/tools/shell.ts lines
102-156): duplicate ids are rejected before anything is spawned; otherwise
a process is spawned and a fresh record stored under the id.  The third
component reports whether `spawn` was called.  The success message in the
source also carries the OS pid, which the pure model omits. -/
def runBackgroundHandler (table : List (Option String × BgRec)) (a : BgArgs) :
    ToolRes × List (Option String × BgRec) × Bool :=
  if hasKeyTable table a.id then
    (⟨"Process with ID " ++ showOptId a.id ++ " already exists", true⟩,
     table, false)
  else
    (⟨"Background process started with ID: " ++ showOptId a.id, false⟩,
     (a.id, ⟨a.command, [], [], none⟩) :: table, true)

/-- From the declared input schema of `run_background`
(src/tools/shell.ts line 100: `required: ['command', 'id']`): in the model
`command` is always a string, so the arguments satisfy the schema exactly
when `id` is present. -/
def runBackgroundArgsValid (a : BgArgs) : Bool :=
  a.id.isSome

/-- JavaScript `args.tail || 50`: `undefined` and `0` are falsy. -/
def jsOr50 : Option Nat → Nat
  | none => 50
  | some n => if n = 0 then 50 else n

/-- JavaScript `xs.slice(-n)` for `n > 0`: the last `n` elements. -/
def takeLast (n : Nat) (l : List String) : List String :=
  l.drop (l.length - n)

/-- Output formatting of `get_process_output` (src/tools/shell.ts lines
227-233). -/
def formatProcOutput (rec : BgRec) (tail : Option Nat) : String :=
  let t := jsOr50 tail
  let output := String.join (takeLast t rec.output)
  let error := String.join (takeLast t rec.error)
  let result := (if output ≠ "" then "Output:\n" ++ output else "") ++
    (if error ≠ "" then "\nError:\n" ++ error else "")
  if output = "" ∧ error = "" then "No output yet" else result

/-- Model of the `get_process_output` handler (src/tools/shell.ts lines
214-241). -/
def getProcessOutputHandler (table : List (Option String × BgRec))
    (id : Option String) (tail : Option Nat) : ToolRes :=
  match lookupTable table id with
  | none => ⟨"No process found with ID: " ++ showOptId id, true⟩
  | some rec => ⟨formatProcOutput rec tail, false⟩

/-- Model of the `kill_process` handler (src/tools/shell.ts lines 257-289):
`killOk` abstracts whether `proc.kill()` throws; the record is deleted only
after a successful kill, and kept when the kill throws. -/
def killProcessHandler (table : List (Option String × BgRec))
    (id : Option String) (killOk : Bool) :
    ToolRes × List (Option String × BgRec) :=
  match lookupTable table id with
  | none => (⟨"No process found with ID: " ++ showOptId id, true⟩, table)
  | some _ =>
    if killOk then
      (⟨"Process " ++ showOptId id ++ " killed", false⟩, eraseKeyTable table id)
    else
      (⟨"Error killing process: kill failed", true⟩, table)

/-! ### Search tools (src/unnamed/part_003, the search module) -/

/-- The search backends the spec and the source mention. -/
inductive SearchBackend where
  | rg
  | ag
  | ack
  | builtin
  | systemGrep
deriving DecidableEq, Repr

/-- Backend choice made by the `grep` and `search` handlers (search module
lines 15-22 and 61-80): `hasRipgrep` probes only `which rg` on each call;
when it fails the handlers shell out to the system `grep -r` command.  The
`agAvail`/`ackAvail` arguments describe the environment; the source never
consults them. -/
def grepToolBackend (rgAvail agAvail ackAvail : Bool) : SearchBackend :=
  if rgAvail then SearchBackend.rg else SearchBackend.systemGrep

/-- Modelled from the spec: the backend-detection chain of spec §4.8 —
probe `rg`, then `ag`, then `ack`, then fall back to a built-in pattern
engine.  No such chain exists in the source; this definition renders the
spec's words for comparison. -/
def specSearchBackend (rgAvail agAvail ackAvail : Bool) : SearchBackend :=
  if rgAvail then SearchBackend.rg
  else if agAvail then SearchBackend.ag
  else if ackAvail then SearchBackend.ack
  else SearchBackend.builtin

/-- Arguments of the `grep` tool (search module lines 27-59), with the
`path` default already applied. -/
structure GrepArgs where
  pattern : String
  path : String
  ignoreCase : Bool
  showLineNumbers : Bool
  contextLines : Nat
  filePattern : Option String
deriving DecidableEq, Repr

/-- The flag-and-operand suffix of the command line the `grep` handler
assembles (search module lines 66-79), identical for both backends except
for the include-glob flag. -/
def grepCmdFlags (isRg : Bool) (a : GrepArgs) : List Char :=
  (if a.ignoreCase then (" -i").data else []) ++
  (if a.showLineNumbers then (" -n").data else []) ++
  (if 0 < a.contextLines then (" -C " ++ toString a.contextLines).data else []) ++
  (match a.filePattern with
   | some g =>
     ((if isRg then " -g \"" else " --include=\"") ++ g ++ "\"").data
   | none => []) ++
  (" \"" ++ a.pattern ++ "\" \"" ++ a.path ++ "\"").data

/-- The full command line the `grep` handler executes, starting from the
probed backend (search module lines 64-80). -/
def buildGrepCmd (rgAvail : Bool) (a : GrepArgs) : List Char :=
  if rgAvail then ("rg").data ++ grepCmdFlags true a
  else ("grep -r").data ++ grepCmdFlags false a

/-! ## Helper lemmas -/

theorem isPrefixOf_exists {p s : List Char} (h : List.isPrefixOf p s = true) :
    ∃ r, s = p ++ r ∧ List.drop p.length s = r := by
  induction p generalizing s with
  | nil => exact ⟨s, rfl, rfl⟩
  | cons q qs ih =>
    cases s with
    | nil => simp [List.isPrefixOf] at h
    | cons c t =>
      simp only [List.isPrefixOf, Bool.and_eq_true, beq_iff_eq] at h
      obtain ⟨rfl, h2⟩ := h
      obtain ⟨r, rfl, hr⟩ := ih h2
      exact ⟨r, rfl, by simp only [List.length_cons, List.drop_succ_cons]; exact hr⟩

theorem isPrefixOf_append_self (l t : List Char) :
    List.isPrefixOf l (l ++ t) = true := by
  induction l with
  | nil => simp [List.isPrefixOf]
  | cons c cs ih => simp [List.isPrefixOf, ih]

theorem countOccF_pos_iff_listIncludes (f : Nat) (s pat : List Char)
    (hf : s.length ≤ f) (hp : pat ≠ []) :
    (0 < countOccF f s pat) ↔ listIncludes s pat = true := by
  induction f generalizing s with
  | zero =>
    cases s with
    | nil =>
      obtain ⟨q, qs, rfl⟩ : ∃ q qs, pat = q :: qs := by
        cases pat with
        | nil => exact absurd rfl hp
        | cons q qs => exact ⟨q, qs, rfl⟩
      simp [countOccF, listIncludes]
    | cons c t => simp at hf
  | succ f ih =>
    cases s with
    | nil =>
      obtain ⟨q, qs, rfl⟩ : ∃ q qs, pat = q :: qs := by
        cases pat with
        | nil => exact absurd rfl hp
        | cons q qs => exact ⟨q, qs, rfl⟩
      simp [countOccF, listIncludes]
    | cons c t =>
      obtain ⟨q, qs, rfl⟩ : ∃ q qs, pat = q :: qs := by
        cases pat with
        | nil => exact absurd rfl hp
        | cons q qs => exact ⟨q, qs, rfl⟩
      by_cases hpre : List.isPrefixOf (q :: qs) (c :: t) = true
      · simp [countOccF, hpre, listIncludes]
      · have hlt : t.length ≤ f := by
          simp only [List.length_cons] at hf; omega
        have := ih t hlt
        simp [countOccF, hpre, listIncludes, this]

theorem countOcc_pos_iff_listIncludes (s pat : List Char) (hp : pat ≠ []) :
    (0 < countOcc s pat) ↔ listIncludes s pat = true := by
  have : pat.isEmpty = false := by
    cases pat with
    | nil => exact absurd rfl hp
    | cons q qs => rfl
  rw [countOcc, this]
  exact countOccF_pos_iff_listIncludes s.length s pat (Nat.le_refl _) hp

theorem replaceFirst_decomp (s pat rep : List Char)
    (h : listIncludes s pat = true) :
    ∃ a b, s = a ++ pat ++ b ∧ replaceFirst s pat rep = a ++ rep ++ b := by
  induction s with
  | nil =>
    cases pat with
    | nil => exact ⟨[], [], rfl, rfl⟩
    | cons q qs => simp [listIncludes] at h
  | cons c t ih =>
    cases pat with
    | nil => exact ⟨[], c :: t, rfl, rfl⟩
    | cons q qs =>
      by_cases hpre : List.isPrefixOf (q :: qs) (c :: t) = true
      · obtain ⟨r, hs, hdrop⟩ := isPrefixOf_exists hpre
        have hdrop' : List.drop qs.length t = r := by
          simp only [List.length_cons, List.drop_succ_cons] at hdrop; exact hdrop
        refine ⟨[], r, by simpa using hs, ?_⟩
        simp [replaceFirst, hpre, hdrop']
      · have ht : listIncludes t (q :: qs) = true := by
          simpa [listIncludes, hpre] using h
        obtain ⟨a, b, hs, hr⟩ := ih ht
        refine ⟨c :: a, b, by simp [hs], ?_⟩
        simp [replaceFirst, hpre, hr]

theorem multiEditStep_fail_fst {content : List Char} {e : Edit}
    (h : listIncludes content e.oldText = false ∨
         1 < countOcc content e.oldText) :
    (multiEditStep content e).1 = content := by
  rcases h with h | h
  · simp [multiEditStep, h]
  · by_cases hinc : listIncludes content e.oldText = false
    · simp [multiEditStep, hinc]
    · simp [multiEditStep, hinc, h]

theorem multiEdit_foldl_fst_all_fail (content : List Char) :
    ∀ (edits : List Edit) (rs : List String),
      (∀ e ∈ edits,
        listIncludes content e.oldText = false ∨
          1 < countOcc content e.oldText) →
      (edits.foldl multiEditLoop (content, rs)).1 = content := by
  intro edits
  induction edits with
  | nil => intro rs _; rfl
  | cons e es ih =>
    intro rs h
    have he := h e (by simp)
    have hstep : multiEditLoop (content, rs) e =
        (content, rs ++ [(multiEditStep content e).2]) := by
      simp [multiEditLoop, multiEditStep_fail_fst he]
    rw [List.foldl_cons, hstep]
    exact ih _ (fun e' he' => h e' (by simp [he']))

theorem lookupTable_eraseKeyTable (t : List (Option String × BgRec))
    (k : Option String) : lookupTable (eraseKeyTable t k) k = none := by
  induction t with
  | nil => rfl
  | cons kv tl ih =>
    by_cases hk : kv.1 == k
    · simpa [eraseKeyTable, hk] using ih
    · simpa [eraseKeyTable, lookupTable, hk] using ih

theorem jsSplitChar_ne_nil (sep : Char) (l : List Char) :
    jsSplitChar sep l ≠ [] := by
  induction l with
  | nil => simp [jsSplitChar]
  | cons c cs ih =>
    by_cases hc : c == sep
    · simp [jsSplitChar, hc]
    · cases hsplit : jsSplitChar sep cs with
      | nil => exact absurd hsplit ih
      | cons h t => simp [jsSplitChar, hc, hsplit]

theorem joinSep_jsSplitChar (sep : Char) (l : List Char) :
    joinSep sep (jsSplitChar sep l) = l := by
  induction l with
  | nil => rfl
  | cons c cs ih =>
    by_cases hc : c == sep
    · have hcs : c = sep := by simpa using hc
      cases hsplit : jsSplitChar sep cs with
      | nil => exact absurd hsplit (jsSplitChar_ne_nil sep cs)
      | cons h t =>
        subst hcs
        simp only [jsSplitChar, beq_self_eq_true, if_true, hsplit]
        simp only [joinSep]
        rw [hsplit] at ih
        simp [ih]
    · cases hsplit : jsSplitChar sep cs with
      | nil => exact absurd hsplit (jsSplitChar_ne_nil sep cs)
      | cons h t =>
        rw [hsplit] at ih
        cases t with
        | nil =>
          simp only [jsSplitChar, hc, if_false, hsplit]
          simp only [joinSep] at ih ⊢
          simp [ih]
        | cons t1 ts =>
          simp only [jsSplitChar, hc, if_false, hsplit]
          simp only [joinSep] at ih ⊢
          simp [← ih]

theorem jsSplitChar_no_sep (sep : Char) (l : List Char) :
    ∀ part ∈ jsSplitChar sep l, sep ∉ part := by
  induction l with
  | nil =>
    intro part hp
    simp [jsSplitChar] at hp
    simp [hp]
  | cons c cs ih =>
    intro part hp
    by_cases hc : (c == sep) = true
    · rw [jsSplitChar, if_pos hc] at hp
      rcases List.mem_cons.mp hp with rfl | hp
      · simp
      · exact ih part hp
    · cases hcs : jsSplitChar sep cs with
      | nil => exact absurd hcs (jsSplitChar_ne_nil sep cs)
      | cons h t =>
        rw [jsSplitChar, if_neg hc, hcs] at hp
        rcases List.mem_cons.mp hp with rfl | hp
        · have hh : sep ∉ h := ih h (by simp [hcs])
          intro hmem
          rcases List.mem_cons.mp hmem with rfl | hm
          · exact hc (by simp)
          · exact hh hm
        · exact ih part (by simp [hcs, hp])

theorem jsSplitChar_head_takeWhile (sep : Char) (l : List Char) :
    ∀ h t, jsSplitChar sep l = h :: t →
      h = l.takeWhile (fun c => !(c == sep)) := by
  induction l with
  | nil =>
    intro h t hsplit
    simp [jsSplitChar] at hsplit
    simp [hsplit.1, List.takeWhile]
  | cons c cs ih =>
    intro h t hsplit
    by_cases hc : c == sep
    · rw [jsSplitChar, if_pos hc] at hsplit
      simp only [List.cons.injEq] at hsplit
      simp [List.takeWhile, hc, ← hsplit.1]
    · cases hcs : jsSplitChar sep cs with
      | nil => exact absurd hcs (jsSplitChar_ne_nil sep cs)
      | cons h0 t0 =>
        rw [jsSplitChar, if_neg (by simpa using hc), hcs] at hsplit
        simp only [List.cons.injEq] at hsplit
        have := ih h0 t0 hcs
        simp [List.takeWhile, hc, ← hsplit.1, this]

/-! ## Claim theorems -/

/-- C1, counterexample: `multi_edit` is not atomic.  On content `"ab"` with
the edit list `[{old:"x",new:"y"}, {old:"a",new:"z"}]` the first edit fails
its uniqueness check (`"x"` is absent), yet the batch is not aborted: the
second edit is applied and the file ends as `"zb"`, not `"ab"`. -/
theorem multi_edit_not_atomic_cex :
    listIncludes (lc "ab") (lc "x") = false ∧
    (multiEditHandler "/tmp/proj/a.txt" (lc "ab")
      [⟨lc "x", lc "y"⟩, ⟨lc "a", lc "z"⟩]).2 = lc "zb" ∧
    lc "zb" ≠ lc "ab" := by decide

/-- C1, amended: a sub-edit that fails its uniqueness check (oldText absent
or occurring more than once) is skipped, not aborting: the passing edits
are still applied in order and the running content is written; the result
does not set `isError`.  The file's bytes are unchanged exactly in the case
that every edit in the list fails its check. -/
theorem multi_edit_all_fail_unchanged (path : String) (content : List Char)
    (edits : List Edit)
    (h : ∀ e ∈ edits,
      listIncludes content e.oldText = false ∨
        1 < countOcc content e.oldText) :
    (multiEditHandler path content edits).2 = content ∧
    (multiEditHandler path content edits).1.isError = false := by
  refine ⟨?_, rfl⟩
  simpa [multiEditHandler] using multiEdit_foldl_fst_all_fail content edits [] h

/-- Witness for C1 (amended) at a concrete input. -/
theorem multi_edit_all_fail_unchanged_witness :
    (∀ e ∈ [Edit.mk (lc "x") (lc "y"), Edit.mk (lc "ab") (lc "z")],
      listIncludes (lc "abab") e.oldText = false ∨
        1 < countOcc (lc "abab") e.oldText) ∧
    ((multiEditHandler "/tmp/f" (lc "abab")
        [Edit.mk (lc "x") (lc "y"), Edit.mk (lc "ab") (lc "z")]).2 = lc "abab" ∧
     (multiEditHandler "/tmp/f" (lc "abab")
        [Edit.mk (lc "x") (lc "y"), Edit.mk (lc "ab") (lc "z")]).1.isError = false) :=
  ⟨by decide,
   multi_edit_all_fail_unchanged "/tmp/f" (lc "abab")
     [Edit.mk (lc "x") (lc "y"), Edit.mk (lc "ab") (lc "z")] (by decide)⟩

/-- C2, counterexample: no allowed-roots check exists in the filesystem
tools.  With allowed roots `["/tmp/proj"]`, reading `/etc/passwd` (whose
canonical form is not under any root) returns the file's contents with
`isError=false` instead of a permission error, and writing `/etc/evil`
changes the filesystem. -/
theorem file_ops_no_permission_check_cex :
    underAllowedRoots ["/tmp/proj"] "/etc/passwd" = false ∧
    readFileHandler ["/tmp/proj"] [("/etc/passwd", "root:x:0:0")]
      "/etc/passwd" = ⟨"root:x:0:0", false⟩ ∧
    underAllowedRoots ["/tmp/proj"] "/etc/evil" = false ∧
    (writeFileHandler ["/tmp/proj"] [] "/etc/evil" "pwn").2 =
      [("/etc/evil", "pwn")] := by decide

/-- C2, amended: the filesystem tools perform no allowed-roots validation
at all — the handlers act on the given path unconditionally, so even for a
path whose canonical form is under none of the configured roots, `read_file`
returns the content of an existing file with `isError=false` and
`write_file` performs the write. -/
theorem file_ops_ignore_allowed_roots (roots : List String)
    (fs : List (String × String)) (p c d : String)
    (hout : underAllowedRoots roots p = false)
    (hfile : lookupFS fs p = some c) :
    readFileHandler roots fs p = ⟨c, false⟩ ∧
    writeFileHandler roots fs p d =
      (⟨"File written successfully: " ++ p, false⟩, setFS fs p d) := by
  exact ⟨by simp [readFileHandler, hfile], rfl⟩

/-- Witness for C2 (amended) at a concrete input. -/
theorem file_ops_ignore_allowed_roots_witness :
    (underAllowedRoots ["/tmp/proj"] "/etc/shadow" = false ∧
     lookupFS [("/etc/shadow", "secret")] "/etc/shadow" = some "secret") ∧
    (readFileHandler ["/tmp/proj"] [("/etc/shadow", "secret")] "/etc/shadow" =
        ⟨"secret", false⟩ ∧
     writeFileHandler ["/tmp/proj"] [("/etc/shadow", "secret")] "/etc/shadow" "x" =
        (⟨"File written successfully: /etc/shadow", false⟩,
         setFS [("/etc/shadow", "secret")] "/etc/shadow" "x")) :=
  ⟨⟨by decide, by decide⟩,
   file_ops_ignore_allowed_roots ["/tmp/proj"] [("/etc/shadow", "secret")]
     "/etc/shadow" "secret" "x" (by decide) (by decide)⟩

/-- C3, counterexample: the dispatcher validates nothing against the
declared input schema.  A `run_background` call without the required `id`
field violates the schema, yet the handler runs, spawns a process, and the
dispatcher forwards its `isError=false` envelope verbatim. -/
theorem dispatch_no_schema_validation_cex :
    runBackgroundArgsValid ⟨"sleep 1", none, none⟩ = false ∧
    (runBackgroundHandler [] ⟨"sleep 1", none, none⟩).1.isError = false ∧
    (runBackgroundHandler [] ⟨"sleep 1", none, none⟩).2.2 = true ∧
    dispatchCallTool
      [("run_background",
        HandlerOutcome.returns (runBackgroundHandler [] ⟨"sleep 1", none, none⟩).1)]
      "run_background" =
      (runBackgroundHandler [] ⟨"sleep 1", none, none⟩).1 := by decide

/-- C3, amended: arguments are passed to the handler unchecked, so a call
whose arguments violate the declared schema is not necessarily answered
with `isError=true`: `run_background` without the required `id` succeeds
(`isError` unset), spawns a process, and registers the record under the
undefined id.  A schema violation surfaces as an error only when the
handler itself fails or throws. -/
theorem run_background_missing_id_succeeds
    (table : List (Option String × BgRec)) (cmd : String) (cwd : Option String)
    (h : hasKeyTable table none = false) :
    (runBackgroundHandler table ⟨cmd, none, cwd⟩).1.isError = false ∧
    (runBackgroundHandler table ⟨cmd, none, cwd⟩).2.2 = true ∧
    hasKeyTable (runBackgroundHandler table ⟨cmd, none, cwd⟩).2.1 none = true := by
  have h' : (lookupTable table none).isSome = false := h
  simp [runBackgroundHandler, hasKeyTable, h', lookupTable]

/-- Witness for C3 (amended) at a concrete input. -/
theorem run_background_missing_id_succeeds_witness :
    (hasKeyTable [] none = false) ∧
    ((runBackgroundHandler [] ⟨"sleep 2", none, some "/tmp"⟩).1.isError = false ∧
     (runBackgroundHandler [] ⟨"sleep 2", none, some "/tmp"⟩).2.2 = true ∧
     hasKeyTable (runBackgroundHandler [] ⟨"sleep 2", none, some "/tmp"⟩).2.1
       none = true) :=
  ⟨by decide, run_background_missing_id_succeeds [] "sleep 2" (some "/tmp") (by decide)⟩

/-- C4, counterexample: with an empty `oldText` the stated trichotomy
fails.  On content `"a"` the occurrence count computed by the code
(`"a".split("").length - 1`) is `0`, so the claim requires a not-found
failure with the file unchanged; instead `"a".includes("")` is true, the
count is not `> 1`, and the call succeeds, rewriting the file to `"xa"`. -/
theorem edit_file_empty_oldText_cex :
    countOcc (lc "a") (lc "") = 0 ∧
    editFileHandler "/tmp/proj/a.txt" (lc "a") (lc "") (lc "x") =
      (⟨"Successfully replaced text in /tmp/proj/a.txt", false⟩, lc "xa") ∧
    lc "xa" ≠ lc "a" := by decide

/-- C4, amended: for every single `edit_file` call with a NON-EMPTY
`oldText` and `replaceAll` absent, with N the number of (non-overlapping)
occurrences of `oldText` in the current content: N=0 fails with the
not-found message and the content is unchanged; N≥2 fails with the
ambiguity message citing N and the content is unchanged; N=1 succeeds and
exactly that occurrence is replaced by `newText`. -/
theorem edit_file_unique_match_behavior (path : String)
    (content old new : List Char) (hne : old ≠ []) :
    (countOcc content old = 0 →
      editFileHandler path content old new =
        (⟨"Error: oldText not found in file. Make sure it matches exactly, including whitespace.",
          true⟩, content)) ∧
    (2 ≤ countOcc content old →
      editFileHandler path content old new =
        (⟨"Error: oldText found " ++ toString (countOcc content old) ++
          " times. Please make it unique by including more context.",
          true⟩, content)) ∧
    (countOcc content old = 1 →
      editFileHandler path content old new =
        (⟨"Successfully replaced text in " ++ path, false⟩,
         replaceFirst content old new) ∧
      ∃ a b, content = a ++ old ++ b ∧
        replaceFirst content old new = a ++ new ++ b) := by
  refine ⟨?_, ?_, ?_⟩
  · intro h0
    have hinc : listIncludes content old = false := by
      cases hb : listIncludes content old
      · rfl
      · have := (countOcc_pos_iff_listIncludes content old hne).mpr hb
        omega
    simp [editFileHandler, hinc]
  · intro h2
    have hinc : listIncludes content old = true :=
      (countOcc_pos_iff_listIncludes content old hne).mp (by omega)
    have hgt : 1 < countOcc content old := by omega
    simp [editFileHandler, hinc, hgt]
  · intro h1
    have hinc : listIncludes content old = true :=
      (countOcc_pos_iff_listIncludes content old hne).mp (by omega)
    have hng : ¬ 1 < countOcc content old := by omega
    refine ⟨by simp [editFileHandler, hinc, hng], ?_⟩
    exact replaceFirst_decomp content old new hinc

/-- Witness for C4 (amended) at a concrete input. -/
theorem edit_file_unique_match_behavior_witness :
    (lc "world" ≠ []) ∧
    ((countOcc (lc "hello world") (lc "world") = 0 →
      editFileHandler "/tmp/proj/a.txt" (lc "hello world") (lc "world") (lc "there") =
        (⟨"Error: oldText not found in file. Make sure it matches exactly, including whitespace.",
          true⟩, lc "hello world")) ∧
    (2 ≤ countOcc (lc "hello world") (lc "world") →
      editFileHandler "/tmp/proj/a.txt" (lc "hello world") (lc "world") (lc "there") =
        (⟨"Error: oldText found " ++
            toString (countOcc (lc "hello world") (lc "world")) ++
          " times. Please make it unique by including more context.",
          true⟩, lc "hello world")) ∧
    (countOcc (lc "hello world") (lc "world") = 1 →
      editFileHandler "/tmp/proj/a.txt" (lc "hello world") (lc "world") (lc "there") =
        (⟨"Successfully replaced text in /tmp/proj/a.txt", false⟩,
         replaceFirst (lc "hello world") (lc "world") (lc "there")) ∧
      ∃ a b, lc "hello world" = a ++ lc "world" ++ b ∧
        replaceFirst (lc "hello world") (lc "world") (lc "there") =
          a ++ lc "there" ++ b)) :=
  ⟨by decide,
   edit_file_unique_match_behavior "/tmp/proj/a.txt" (lc "hello world")
     (lc "world") (lc "there") (by decide)⟩

/-- C5, counterexample: the CLI stdio server's dispatcher does not return a
tool-result envelope for an unknown tool name — the fall-through at
src/cli.ts line 270 throws `Error("Unknown tool: ...")`, letting the
exception propagate to the transport. -/
theorem cli_dispatch_unknown_tool_throws_cex :
    cliToolNames.contains "frobnicate" = false ∧
    cliDispatchCallTool ⟨"ok", false⟩ "frobnicate" =
      Except.error "Unknown tool: frobnicate" := by
  exact ⟨by decide, rfl⟩

/-- C5, amended: `createMCPServer`'s dispatcher (src/index.ts) always
returns a tool-result envelope: an unknown tool name yields `isError=true`
with a message naming the tool, a throwing handler is caught and yields
`isError=true` with a diagnostic, and a returning handler's envelope is
forwarded verbatim.  The CLI stdio dispatcher (src/cli.ts), however, throws
an `Error` naming the tool for unknown tool names instead of returning an
envelope. -/
theorem dispatcher_envelope_behavior (reg : List (String × HandlerOutcome))
    (name : String) (branchResult : ToolRes) :
    (lookupAssoc reg name = none →
      dispatchCallTool reg name = ⟨"Unknown tool: " ++ name, true⟩) ∧
    (∀ r, lookupAssoc reg name = some (HandlerOutcome.returns r) →
      dispatchCallTool reg name = r) ∧
    (∀ m, lookupAssoc reg name = some (HandlerOutcome.throws m) →
      dispatchCallTool reg name =
        ⟨"Error executing " ++ name ++ ": " ++ m, true⟩) ∧
    (cliToolNames.contains name = false →
      cliDispatchCallTool branchResult name =
        Except.error ("Unknown tool: " ++ name)) := by
  refine ⟨?_, ?_, ?_, ?_⟩
  · intro h; simp [dispatchCallTool, h]
  · intro r h; simp [dispatchCallTool, h]
  · intro m h; simp [dispatchCallTool, h]
  · intro h
    have h' : name ∉ cliToolNames := by simpa using h
    simp [cliDispatchCallTool, h']

/-- Witness for C5 (amended), exercising all four cases at concrete
inputs. -/
theorem dispatcher_envelope_behavior_witness :
    dispatchCallTool [] "mystery" = ⟨"Unknown tool: " ++ "mystery", true⟩ ∧
    dispatchCallTool [("t", HandlerOutcome.returns ⟨"ok", false⟩)] "t" =
      ⟨"ok", false⟩ ∧
    dispatchCallTool [("t", HandlerOutcome.throws "boom")] "t" =
      ⟨"Error executing " ++ "t" ++ ": " ++ "boom", true⟩ ∧
    cliDispatchCallTool ⟨"ok", false⟩ "mystery" =
      Except.error ("Unknown tool: " ++ "mystery") :=
  ⟨(dispatcher_envelope_behavior [] "mystery" ⟨"ok", false⟩).1 rfl,
   (dispatcher_envelope_behavior [("t", HandlerOutcome.returns ⟨"ok", false⟩)]
      "t" ⟨"ok", false⟩).2.1 ⟨"ok", false⟩ rfl,
   (dispatcher_envelope_behavior [("t", HandlerOutcome.throws "boom")]
      "t" ⟨"ok", false⟩).2.2.1 "boom" rfl,
   (dispatcher_envelope_behavior [] "mystery" ⟨"ok", false⟩).2.2.2 (by decide)⟩

/-- C6, counterexample: a command that terminates with a non-zero exit
status is reported as an error, not as data: `promisify(exec)` rejects and
the catch branch sets `isError=true`.  (A zero exit status, by contrast,
yields `isError=false`.) -/
theorem bash_nonzero_exit_is_error_cex :
    (bashHandler "false" (ExecOutcome.exited 1 "" "")).isError = true ∧
    bashHandler "true" (ExecOutcome.exited 0 "" "") =
      ⟨"Command completed with no output", false⟩ := by decide

/-- C6, amended: for a command that starts and terminates within the
timeout, the `bash`/`run_command` result has `isError=true` exactly when
the exit status is non-zero (the promisified `exec` rejects on any non-zero
exit, and the handler's catch branch converts the rejection into an error
envelope); the exit status itself is never reported as an integer. -/
theorem bash_exit_code_error_reporting (cmd out err : String) (c : Nat) :
    (bashHandler cmd (ExecOutcome.exited c out err)).isError = decide (c ≠ 0) := by
  cases c with
  | zero => simp [bashHandler]
  | succ n => simp [bashHandler]

/-- C7, counterexample: the probe chain of the claim does not exist.  In an
environment with `rg` absent and `ag` present, the claim's selection would
be `ag`; the code selects the external `grep -r` command (it probes only
`rg` and never `ag`, `ack`, or a built-in engine). -/
theorem backend_probe_chain_cex :
    specSearchBackend false true false = SearchBackend.ag ∧
    grepToolBackend false true false = SearchBackend.systemGrep ∧
    SearchBackend.ag ≠ SearchBackend.systemGrep ∧
    List.isPrefixOf ("grep -r").data
      (buildGrepCmd false ⟨"q", ".", false, true, 0, none⟩) = true := by decide

/-- C7, amended: backend selection probes only for `rg` (running `which rg`
inside each `grep`/`search` call, with no process-wide cache): when the
probe succeeds the assembled command line starts with `rg`, otherwise it
starts with the system `grep -r` command; `ag` and `ack` are never probed
and no built-in pattern engine exists. -/
theorem grep_backend_selection (agAvail ackAvail : Bool) (a : GrepArgs) :
    grepToolBackend true agAvail ackAvail = SearchBackend.rg ∧
    grepToolBackend false agAvail ackAvail = SearchBackend.systemGrep ∧
    List.isPrefixOf ("rg").data (buildGrepCmd true a) = true ∧
    List.isPrefixOf ("grep -r").data (buildGrepCmd false a) = true := by
  refine ⟨rfl, rfl, ?_, ?_⟩
  · simp [buildGrepCmd, isPrefixOf_append_self]
  · simp [buildGrepCmd, isPrefixOf_append_self]

/-- C8: `run_background` with an id that is already live returns an error
envelope naming the conflicting id, leaves the table untouched, and spawns
nothing. -/
theorem run_background_duplicate_id_rejected
    (table : List (Option String × BgRec)) (cmd : String) (i : String)
    (cwd : Option String) (h : hasKeyTable table (some i) = true) :
    runBackgroundHandler table ⟨cmd, some i, cwd⟩ =
      (⟨"Process with ID " ++ i ++ " already exists", true⟩, table, false) := by
  simp [runBackgroundHandler, h, showOptId]

/-- Witness for C8 at a concrete input. -/
theorem run_background_duplicate_id_rejected_witness :
    (hasKeyTable [(some "s", BgRec.mk "sleep 5" [] [] none)] (some "s") = true) ∧
    runBackgroundHandler [(some "s", BgRec.mk "sleep 5" [] [] none)]
        ⟨"echo hi", some "s", none⟩ =
      (⟨"Process with ID " ++ "s" ++ " already exists", true⟩,
       [(some "s", BgRec.mk "sleep 5" [] [] none)], false) :=
  ⟨by decide,
   run_background_duplicate_id_rejected [(some "s", BgRec.mk "sleep 5" [] [] none)]
     "echo hi" "s" none (by decide)⟩

/-- C9: when `kill_process(id)` succeeds, the record is deleted from the
table, and a subsequent `get_process_output(id)` on the resulting table
returns `isError=true` with the not-found message. -/
theorem kill_process_removes_record (table : List (Option String × BgRec))
    (i : String) (killOk : Bool) (tail : Option Nat)
    (h : (killProcessHandler table (some i) killOk).1.isError = false) :
    (killProcessHandler table (some i) killOk).2 = eraseKeyTable table (some i) ∧
    hasKeyTable (killProcessHandler table (some i) killOk).2 (some i) = false ∧
    getProcessOutputHandler (killProcessHandler table (some i) killOk).2
        (some i) tail =
      ⟨"No process found with ID: " ++ i, true⟩ := by
  cases hlook : lookupTable table (some i) with
  | none => simp [killProcessHandler, hlook] at h
  | some rec =>
    cases killOk with
    | false => simp [killProcessHandler, hlook] at h
    | true =>
      have h2 : (killProcessHandler table (some i) true).2 =
          eraseKeyTable table (some i) := by
        simp [killProcessHandler, hlook]
      refine ⟨h2, ?_, ?_⟩
      · rw [h2]; simp [hasKeyTable, lookupTable_eraseKeyTable]
      · rw [h2]
        simp [getProcessOutputHandler, lookupTable_eraseKeyTable, showOptId]

/-- Witness for C9 at a concrete input. -/
theorem kill_process_removes_record_witness :
    ((killProcessHandler [(some "s", BgRec.mk "sh" [] [] none)]
        (some "s") true).1.isError = false) ∧
    ((killProcessHandler [(some "s", BgRec.mk "sh" [] [] none)]
        (some "s") true).2 =
      eraseKeyTable [(some "s", BgRec.mk "sh" [] [] none)] (some "s") ∧
     hasKeyTable (killProcessHandler [(some "s", BgRec.mk "sh" [] [] none)]
        (some "s") true).2 (some "s") = false ∧
     getProcessOutputHandler
        (killProcessHandler [(some "s", BgRec.mk "sh" [] [] none)]
          (some "s") true).2 (some "s") none =
       ⟨"No process found with ID: " ++ "s", true⟩) :=
  ⟨by decide,
   kill_process_removes_record [(some "s", BgRec.mk "sh" [] [] none)]
     "s" true none (by decide)⟩

/-- C10: `run_background` tokenizes the command string by splitting on
single spaces and spawns it without any shell: the executable is exactly
the maximal space-free head of the command, the head and the argument
vector rejoined with single spaces reproduce the command exactly (so every
token — including quoting, pipes, and operators such as `|` — is passed
through literally), and no token contains a space. -/
theorem run_background_command_tokenization (command : List Char) :
    (parseBgCommand command).1 = command.takeWhile (fun c => !(c == ' ')) ∧
    joinSep ' ' ((parseBgCommand command).1 :: (parseBgCommand command).2) =
      command ∧
    ∀ t ∈ (parseBgCommand command).1 :: (parseBgCommand command).2,
      ' ' ∉ t := by
  cases hsplit : jsSplitChar ' ' command with
  | nil => exact absurd hsplit (jsSplitChar_ne_nil ' ' command)
  | cons h t =>
    have hhead := jsSplitChar_head_takeWhile ' ' command h t hsplit
    have hjoin := joinSep_jsSplitChar ' ' command
    have hns := jsSplitChar_no_sep ' ' command
    rw [hsplit] at hjoin hns
    refine ⟨?_, ?_, ?_⟩
    · simp [parseBgCommand, hsplit, hhead]
    · simpa [parseBgCommand, hsplit] using hjoin
    · intro tok htok
      apply hns
      simpa [parseBgCommand, hsplit] using htok

/-- Witness for C10 at a concrete input: in `"echo hi | rm x"` the pipe is
an ordinary literal token, and the spawned executable is `"echo"`. -/
theorem run_background_command_tokenization_witness :
    ((lc "echo") ∈ (parseBgCommand (lc "echo hi | rm x")).1 ::
        (parseBgCommand (lc "echo hi | rm x")).2) ∧
    ' ' ∉ (lc "echo") :=
  ⟨by decide,
   (run_background_command_tokenization (lc "echo hi | rm x")).2.2
     (lc "echo") (by decide)⟩

end HanzoMCP
